import Mathlib

/-!
Verification of the request validation → lookup → pagination/truncation →
response envelope pipeline of the push-chain-mcp-server repository.

The JavaScript source is shallowly embedded: JS strings are Lean `String`s
(sequences of characters), JS arrays are Lean `List`s, JS objects become
structures, and each relevant source function becomes a Lean definition with
the same name.  JS `Array.prototype.slice`, `String.prototype.includes`,
`substring`, `split('\n')`, `trim` are modelled by the corresponding
character-sequence operations.
-/

namespace PushChain

/-! ## JavaScript string and array primitives -/

/-- JS `Array.prototype.slice(s, e)` for `0 ≤ s ≤ e` (the only shapes the
source uses: the start index is already clamped at 0 by `Math.max`). -/
def jsSlice (l : List α) (s e : Nat) : List α :=
  (l.drop s).take (e - s)

/-- JS `String.prototype.toLowerCase` (ASCII-adequate, as in the source data). -/
def lowerStr (s : String) : String :=
  String.mk (s.data.map Char.toLower)

/-- JS `hay.includes(nee)` on character lists: `nee` occurs contiguously in `hay`. -/
def containsSub : List Char → List Char → Bool
  | [], nee => nee.isEmpty
  | a :: t, nee => nee.isPrefixOf (a :: t) || containsSub t nee

/-- JS `hay.includes(nee)` on strings. -/
def strIncludes (hay nee : String) : Bool :=
  containsSub hay.data nee.data

/-- JS `s.startsWith(pre)`. -/
def strStartsWith (s pre : String) : Bool :=
  pre.data.isPrefixOf s.data

/-- JS `s.trim()`: strip whitespace from both ends. -/
def jsTrim (s : String) : String :=
  String.mk (((s.data.dropWhile Char.isWhitespace).reverse.dropWhile
    Char.isWhitespace).reverse)

def splitLinesAux : List Char → List Char → List String
  | [], cur => [String.mk cur.reverse]
  | c :: rest, cur =>
    if c = '\n' then String.mk cur.reverse :: splitLinesAux rest []
    else splitLinesAux rest (c :: cur)

/-- JS `content.split('\n')`. -/
def splitLines (s : String) : List String :=
  splitLinesAux s.data []

/-- JS `lines.join('\n')`. -/
def joinLines : List String → String
  | [] => ""
  | [s] => s
  | s :: rest => s ++ "\n" ++ joinLines rest

theorem strLength_data (s : String) : s.length = s.data.length := rfl

theorem isPrefixOf_append_self (l t : List Char) : l.isPrefixOf (l ++ t) = true := by
  induction l with
  | nil => simp
  | cons a l ih => simp [ih]

theorem containsSub_of_isPrefixOf {hay nee : List Char}
    (h : nee.isPrefixOf hay = true) : containsSub hay nee = true := by
  cases hay with
  | nil =>
      cases nee with
      | nil => rfl
      | cons b t => simp [List.isPrefixOf] at h
  | cons a t => simp [containsSub, h]

theorem containsSub_append_left (pre : List Char) {hay nee : List Char}
    (h : containsSub hay nee = true) : containsSub (pre ++ hay) nee = true := by
  induction pre with
  | nil => simpa using h
  | cons a pre ih => simp [containsSub, ih]

/-- A needle occurs in any string of the shape `x ++ needle ++ y`. -/
theorem containsSub_sandwich (x d y : List Char) :
    containsSub (x ++ (d ++ y)) d = true := by
  apply containsSub_append_left
  exact containsSub_of_isPrefixOf (isPrefixOf_append_self d y)

/-! ## Response envelope (`src/utils/error-handler.js`)

The MCP tool response `{content: [{type:"text", text}], isError?}` is modelled
with the content collapsed to the list of its text items; the optional
`isError` flag becomes an `Option Bool` (`none` = the field is absent, as in
`createSuccessResponse`). -/

structure ToolResponse where
  content : List String
  isError : Option Bool
deriving DecidableEq

/-- `createErrorResponse(errorMessage, isError = true)` from `error-handler.js`. -/
def createErrorResponse (errorMessage : String) (isError : Bool) : ToolResponse :=
  ⟨[errorMessage], some isError⟩

/-- `createSuccessResponse(text)` from `error-handler.js` (no `isError` field). -/
def createSuccessResponse (text : String) : ToolResponse :=
  ⟨[text], none⟩

/-! ## Pagination / truncation formatter (`src/utils/response-formatter.js`) -/

/-- `CHARACTER_LIMIT` from `src/utils/constants.js`. -/
def CHARACTER_LIMIT : Nat := 25000

/-- The template-literal notice appended by `enforceCharacterLimit`, split at
its two interpolation holes `${text.length}` and `${limit}`. -/
def noticeHead : String := "\n\n---\n**[Response Truncated]**\nOriginal length: "

def noticeMid : String := " characters\nShowing: "

def noticeTail : String :=
  " characters\n\nTo see more results:\n- Use more specific search terms or filters\n- Use pagination parameters (limit, offset) to retrieve data in smaller chunks\n- Request specific sections or resources instead of full content"

/-- The full truncation notice for a text of original length `origLen` cut to
`shown` characters. -/
def truncationNotice (origLen shown : Nat) : String :=
  noticeHead ++ (toString origLen ++ (noticeMid ++ (toString shown ++ noticeTail)))

/-- Result object of `enforceCharacterLimit` (the `displayedLength` field is
only present on the truncated branch). -/
structure LimitedText where
  text : String
  truncated : Bool
  originalLength : Nat
  displayedLength : Option Nat
deriving DecidableEq

/-- `enforceCharacterLimit(text, limit = CHARACTER_LIMIT)` from
`response-formatter.js`; `text.substring(0, limit)` is the first `limit`
characters. -/
def enforceCharacterLimit (text : String) (limit : Nat) : LimitedText :=
  if text.length ≤ limit then
    ⟨text, false, text.length, none⟩
  else
    ⟨String.mk (text.data.take limit) ++ truncationNotice text.length limit,
     true, text.length, some limit⟩

/-- Result object of `truncateArray`. -/
structure TruncatedArray (α : Type) where
  items : List α
  truncated : Bool
  total : Nat
  showing : Nat
  message : Option String
deriving DecidableEq

/-- `truncateArray(items, maxItems, itemType = "items")` from
`response-formatter.js`. -/
def truncateArray (items : List α) (maxItems : Nat) (itemType : String) :
    TruncatedArray α :=
  if items.length ≤ maxItems then
    ⟨items, false, items.length, items.length, none⟩
  else
    ⟨items.take maxItems, true, items.length, maxItems,
     some ("Showing " ++ toString maxItems ++ " of " ++ toString items.length
       ++ " " ++ itemType ++ ". Use pagination or filters to see more.")⟩

theorem truncateArray_items (items : List α) (maxItems : Nat) (itemType : String) :
    (truncateArray items maxItems itemType).items = items.take maxItems := by
  by_cases h : items.length ≤ maxItems
  · simp [truncateArray, h, List.take_of_length_le h]
  · simp [truncateArray, h]

/-- Pagination metadata object; `showing` is an `Int` because JS
`Math.min(limit, total - offset)` goes negative when `offset > total`, and
`next_offset` is only spread into the object when `hasMore`. -/
structure PaginationMetadata where
  total : Nat
  offset : Nat
  limit : Nat
  showing : Int
  has_more : Bool
  next_offset : Option Nat
deriving DecidableEq

/-- `formatPaginationMetadata(total, offset, limit)` from
`response-formatter.js`. -/
def formatPaginationMetadata (total offset limit : Nat) : PaginationMetadata :=
  ⟨total, offset, limit,
   min (limit : Int) ((total : Int) - (offset : Int)),
   decide (offset + limit < total),
   if offset + limit < total then some (offset + limit) else none⟩

/-! ## C2: truncation safety of `enforceCharacterLimit` -/

/-- **C2.** For every response text longer than `CHARACTER_LIMIT` = 25000,
`enforceCharacterLimit` returns the first 25000 characters of the text
followed by the truncation notice, so the returned length is exactly 25000
plus the notice length; the notice states the true original length and the
shown length (their decimal digit strings occur in the returned text), and
the result records `originalLength` and `displayedLength` faithfully. -/
theorem enforceCharacterLimit_truncation_safety (text : String)
    (h : CHARACTER_LIMIT < text.length) :
    (enforceCharacterLimit text CHARACTER_LIMIT).text
        = String.mk (text.data.take CHARACTER_LIMIT)
          ++ truncationNotice text.length CHARACTER_LIMIT
    ∧ (enforceCharacterLimit text CHARACTER_LIMIT).text.data.take CHARACTER_LIMIT
        = text.data.take CHARACTER_LIMIT
    ∧ (enforceCharacterLimit text CHARACTER_LIMIT).text.length
        = CHARACTER_LIMIT + (truncationNotice text.length CHARACTER_LIMIT).length
    ∧ containsSub (enforceCharacterLimit text CHARACTER_LIMIT).text.data
        (toString text.length).data = true
    ∧ containsSub (enforceCharacterLimit text CHARACTER_LIMIT).text.data
        (toString CHARACTER_LIMIT).data = true
    ∧ (enforceCharacterLimit text CHARACTER_LIMIT).truncated = true
    ∧ (enforceCharacterLimit text CHARACTER_LIMIT).originalLength = text.length
    ∧ (enforceCharacterLimit text CHARACTER_LIMIT).displayedLength
        = some CHARACTER_LIMIT := by
  have hnot : ¬ text.length ≤ CHARACTER_LIMIT := Nat.not_le.mpr h
  have htext : (enforceCharacterLimit text CHARACTER_LIMIT).text
      = String.mk (text.data.take CHARACTER_LIMIT)
        ++ truncationNotice text.length CHARACTER_LIMIT := by
    simp [enforceCharacterLimit, hnot]
  have hdatalen : CHARACTER_LIMIT ≤ text.data.length := by
    rw [← strLength_data]
    exact le_of_lt h
  have htake_len : (text.data.take CHARACTER_LIMIT).length = CHARACTER_LIMIT := by
    rw [List.length_take]
    omega
  refine ⟨htext, ?_, ?_, ?_, ?_, ?_, ?_, ?_⟩
  · rw [htext, String.data_append]
    have hmk : (String.mk (text.data.take CHARACTER_LIMIT)).data
        = text.data.take CHARACTER_LIMIT := rfl
    rw [hmk, List.take_append_of_le_length (le_of_eq htake_len.symm),
      List.take_take, Nat.min_self]
  · rw [htext, String.length_append, String.length_mk, htake_len]
  · rw [htext, String.data_append]
    apply containsSub_append_left
    have hd : (truncationNotice text.length CHARACTER_LIMIT).data
        = noticeHead.data ++ ((toString text.length).data
          ++ (noticeMid ++ (toString CHARACTER_LIMIT ++ noticeTail)).data) := by
      simp [truncationNotice]
    rw [hd]
    exact containsSub_sandwich _ _ _
  · rw [htext, String.data_append]
    apply containsSub_append_left
    have hd : (truncationNotice text.length CHARACTER_LIMIT).data
        = (noticeHead ++ (toString text.length ++ noticeMid)).data
          ++ ((toString CHARACTER_LIMIT).data ++ noticeTail.data) := by
      simp [truncationNotice]
    rw [hd]
    exact containsSub_sandwich _ _ _
  · simp [enforceCharacterLimit, hnot]
  · simp [enforceCharacterLimit, hnot]
  · simp [enforceCharacterLimit, hnot]

/-- Concrete text of length 25001 used to witness C2. -/
def overLongText : String := String.mk (List.replicate 25001 'a')

theorem enforceCharacterLimit_truncation_safety_witness :
    CHARACTER_LIMIT < overLongText.length
    ∧ ((enforceCharacterLimit overLongText CHARACTER_LIMIT).text
          = String.mk (overLongText.data.take CHARACTER_LIMIT)
            ++ truncationNotice overLongText.length CHARACTER_LIMIT
      ∧ (enforceCharacterLimit overLongText CHARACTER_LIMIT).text.data.take CHARACTER_LIMIT
          = overLongText.data.take CHARACTER_LIMIT
      ∧ (enforceCharacterLimit overLongText CHARACTER_LIMIT).text.length
          = CHARACTER_LIMIT
            + (truncationNotice overLongText.length CHARACTER_LIMIT).length
      ∧ containsSub (enforceCharacterLimit overLongText CHARACTER_LIMIT).text.data
          (toString overLongText.length).data = true
      ∧ containsSub (enforceCharacterLimit overLongText CHARACTER_LIMIT).text.data
          (toString CHARACTER_LIMIT).data = true
      ∧ (enforceCharacterLimit overLongText CHARACTER_LIMIT).truncated = true
      ∧ (enforceCharacterLimit overLongText CHARACTER_LIMIT).originalLength
          = overLongText.length
      ∧ (enforceCharacterLimit overLongText CHARACTER_LIMIT).displayedLength
          = some CHARACTER_LIMIT) := by
  have h : CHARACTER_LIMIT < overLongText.length := by
    show CHARACTER_LIMIT < (List.replicate 25001 'a').length
    rw [List.length_replicate]
    norm_num [CHARACTER_LIMIT]
  exact ⟨h, enforceCharacterLimit_truncation_safety overLongText h⟩

/-! ## C5: pagination metadata when `offset ≥ total` -/

/-- **C5 counterexample.** The claim says the result is "reported as showing
0 of total" whenever `offset ≥ total`; but `formatPaginationMetadata(3, 5, 2)`
reports `showing = min(2, 3 - 5) = -2`, not 0. -/
theorem formatPaginationMetadata_offset_past_end_counterexample :
    (formatPaginationMetadata 3 5 2).showing = -2
    ∧ ¬ (formatPaginationMetadata 3 5 2).showing = 0 := by
  constructor
  · decide
  · decide

/-- **C5 (amended).** For `offset ≥ total` and `limit ≥ 1`, the metadata is
produced without any error signal: `has_more` is false (since
`offset + limit < total` fails), no `next_offset` is attached, and the
reported `showing` equals `total - offset` — which is 0 exactly when
`offset = total` and negative when `offset > total`. -/
theorem formatPaginationMetadata_offset_past_end (total offset limit : Nat)
    (htot : total ≤ offset) (hlim : 1 ≤ limit) :
    (formatPaginationMetadata total offset limit).has_more = false
    ∧ (formatPaginationMetadata total offset limit).next_offset = none
    ∧ (formatPaginationMetadata total offset limit).showing
        = (total : Int) - (offset : Int)
    ∧ ((formatPaginationMetadata total offset limit).showing = 0 ↔ total = offset) := by
  have hno : ¬ offset + limit < total := by omega
  refine ⟨by simp [formatPaginationMetadata, hno], by simp [formatPaginationMetadata, hno], ?_, ?_⟩
  · have : (total : Int) - (offset : Int) ≤ (limit : Int) := by
      have h1 : (total : Int) ≤ (offset : Int) := by exact_mod_cast htot
      have h2 : (1 : Int) ≤ (limit : Int) := by exact_mod_cast hlim
      omega
    simp [formatPaginationMetadata, min_eq_right this]
  · have : (total : Int) - (offset : Int) ≤ (limit : Int) := by
      have h1 : (total : Int) ≤ (offset : Int) := by exact_mod_cast htot
      have h2 : (1 : Int) ≤ (limit : Int) := by exact_mod_cast hlim
      omega
    rw [formatPaginationMetadata]
    simp only [min_eq_right this]
    constructor
    · intro h0
      have : (total : Int) = (offset : Int) := by omega
      exact_mod_cast this
    · intro h0
      subst h0
      omega

theorem formatPaginationMetadata_offset_past_end_witness :
    (3 ≤ 5 ∧ 1 ≤ 2)
    ∧ ((formatPaginationMetadata 3 5 2).has_more = false
      ∧ (formatPaginationMetadata 3 5 2).next_offset = none
      ∧ (formatPaginationMetadata 3 5 2).showing = (3 : Int) - (5 : Int)
      ∧ ((formatPaginationMetadata 3 5 2).showing = 0 ↔ 3 = 5)) :=
  ⟨⟨by decide, by decide⟩,
   formatPaginationMetadata_offset_past_end 3 5 2 (by decide) (by decide)⟩

/-! ## SDK data model (`src/index-sdk.js`)

`coreAndUIKitExports` groups export records by kind; `coreAndUIKitFiles` maps
source-file paths to their text (modelled as an association list in
`Object.entries` order). -/

/-- One entry of `exportsData.functions` / `.classes` / … : the fields the
handlers read (`name`, `file`). -/
structure ExportRecord where
  name : String
  file : String
deriving DecidableEq

/-- The five keys of the `coreAndUIKitExports` object. -/
inductive ExportType
  | functions
  | classes
  | types
  | interfaces
  | constants
deriving DecidableEq

/-- The `coreAndUIKitExports` object. -/
structure SdkExports where
  functions : List ExportRecord
  classes : List ExportRecord
  types : List ExportRecord
  interfaces : List ExportRecord
  constants : List ExportRecord
deriving DecidableEq

/-- `Object.entries(coreAndUIKitExports)` in insertion order. -/
def exportEntries (ex : SdkExports) : List (ExportType × List ExportRecord) :=
  [(ExportType.functions, ex.functions), (ExportType.classes, ex.classes),
   (ExportType.types, ex.types), (ExportType.interfaces, ex.interfaces),
   (ExportType.constants, ex.constants)]

/-- `{ ...exp, exportType: type }` as pushed by `findExport` / `searchInCode`. -/
structure FoundExport where
  name : String
  file : String
  exportType : ExportType
deriving DecidableEq

/-- The `!packageFilter || exp.file.includes(\x60packages/${packageFilter}/\x60)`
test inside `findExport`. -/
def matchesPackageFilter : Option String → String → Bool
  | none, _ => true
  | some p, file => strIncludes file ("packages/" ++ (p ++ "/"))

/-- `findExport(name, packageFilter)` from `src/index-sdk.js`: collects every
export record (over all five kinds, in `Object.entries` order) whose `name`
equals the query and whose file passes the package filter. -/
def findExport (ex : SdkExports) (name : String) (packageFilter : Option String) :
    List FoundExport :=
  (exportEntries ex).flatMap (fun te =>
    te.2.filterMap (fun exp =>
      if exp.name == name && matchesPackageFilter packageFilter exp.file then
        some ⟨exp.name, exp.file, te.1⟩
      else none))

/-- The `scope` enum of `SearchSdkInputSchema`. -/
inductive Scope
  | all
  | exports
  | code
  | types
deriving DecidableEq

/-- One element of `matchingLines` inside `searchInCode`. -/
structure CodeLineMatch where
  lineNumber : Nat
  line : String
  context : String
deriving DecidableEq

/-- One element of `results.codeMatches` (the JS field `matches` is renamed
`matchList`: `matches` is a reserved word in Lean). -/
structure CodeFileMatches where
  path : String
  matchList : List CodeLineMatch
deriving DecidableEq

/-- One element of `results.files`. -/
structure FileSearchHit where
  path : String
  reason : String
deriving DecidableEq

/-- The `results` object built by `searchInCode`. -/
structure SearchResults where
  exports : List FoundExport
  files : List FileSearchHit
  codeMatches : List CodeFileMatches
deriving DecidableEq

/-- The `lines.forEach((line, idx) => { if (line.toLowerCase().includes(lowerQuery))
matchingLines.push({lineNumber: idx + 1, line: line.trim(), context:
lines.slice(Math.max(0, idx - 2), idx + 3).join('\n')}) })` loop, as an
index-carrying recursion over the suffix of `lines` that starts at `idx`. -/
def codeMatchLinesAux (lowerQuery : String) (lines : List String) :
    Nat → List String → List CodeLineMatch
  | _, [] => []
  | idx, line :: rest =>
    if strIncludes (lowerStr line) lowerQuery then
      ⟨idx + 1, jsTrim line, joinLines (jsSlice lines (idx - 2) (idx + 3))⟩
        :: codeMatchLinesAux lowerQuery lines (idx + 1) rest
    else codeMatchLinesAux lowerQuery lines (idx + 1) rest

/-- All matching lines of one file's content (`content.split('\n')`). -/
def codeMatchLines (lowerQuery : String) (content : String) : List CodeLineMatch :=
  codeMatchLinesAux lowerQuery (splitLines content) 0 (splitLines content)

/-- `searchInCode(query, scope, limit, offset)` from `src/index-sdk.js`.
Note: exactly as in the source, the `limit` and `offset` parameters are
unused by the search itself, so they are not parameters here; the single
loop over `Object.entries(coreAndUIKitFiles)` with its `if`/`else if` is
split into the two complementary `filterMap` passes producing `files` and
`codeMatches` (same elements, same order). -/
def searchInCode (ex : SdkExports) (files : List (String × String))
    (query : String) (scope : Scope) : SearchResults :=
  let lowerQuery := lowerStr query
  let exportsR :=
    if scope == Scope.all || scope == Scope.exports || scope == Scope.types then
      (exportEntries ex).flatMap (fun te =>
        te.2.filterMap (fun exp =>
          if strIncludes (lowerStr exp.name) lowerQuery then
            some ⟨exp.name, exp.file, te.1⟩
          else none))
    else []
  let filesR :=
    if scope == Scope.all || scope == Scope.code then
      files.filterMap (fun pc =>
        if strIncludes (lowerStr pc.1) lowerQuery then
          some ⟨pc.1, "path match"⟩
        else none)
    else []
  let codeR :=
    if scope == Scope.all || scope == Scope.code then
      files.filterMap (fun pc =>
        if strIncludes (lowerStr pc.1) lowerQuery then none
        else if strIncludes (lowerStr pc.2) lowerQuery then
          let matchingLines := codeMatchLines lowerQuery pc.2
          if matchingLines.isEmpty then none
          else some ⟨pc.1, matchingLines.take 5⟩
        else none)
    else []
  ⟨exportsR, filesR, codeR⟩

/-- The `summary` object assembled by the `search_sdk` handler: per-category
`truncateArray(..., params.limit)` slices, per-category totals, and
`formatPaginationMetadata(totalSum, params.offset, params.limit)`. -/
structure SearchSdkSummary where
  exportsItems : List FoundExport
  fileItems : List FileSearchHit
  codeItems : List CodeFileMatches
  totalExports : Nat
  totalFiles : Nat
  totalCodeMatches : Nat
  pagination : PaginationMetadata
deriving DecidableEq

def searchSdkSummarize (r : SearchResults) (limit offset : Nat) : SearchSdkSummary :=
  ⟨(truncateArray r.exports limit "export matches").items,
   (truncateArray r.files limit "file matches").items,
   (truncateArray r.codeMatches limit "code matches").items,
   r.exports.length, r.files.length, r.codeMatches.length,
   formatPaginationMetadata (r.exports.length + r.files.length + r.codeMatches.length)
     offset limit⟩

/-- The `search_sdk` tool pipeline after validation. -/
def searchSdkTool (ex : SdkExports) (files : List (String × String))
    (query : String) (scope : Scope) (limit offset : Nat) : SearchSdkSummary :=
  searchSdkSummarize (searchInCode ex files query scope) limit offset

/-! ## C1: `search_sdk` ignores the pagination offset -/

/-- Store with two exported functions whose names match the query "push". -/
def twoPushExports : SdkExports :=
  ⟨[⟨"pushA", "packages/core/src/a.ts"⟩, ⟨"pushB", "packages/core/src/b.ts"⟩],
   [], [], [], []⟩

/-- **C1 (code bug).** With total `N = 2` matching exports, `offset F = 1` and
`limit L = 2`, the claim (and the schema's own description of `offset` as the
number of results to skip) requires `min(L, N - F) = 1` returned item, and the
reported `showing` is indeed `1`; but the handler returns both items —
`truncateArray` slices from position 0 and `searchInCode` never reads
`offset` — so the returned item count is `min(L, N) = 2 ≠ min(L, N - F)`.
The `has_more`/`next_offset` parts of the claim do hold
(`has_more = (F + L < N) = false` here). -/
theorem searchSdkTool_offset_ignored_bug :
    (searchSdkTool twoPushExports [] "push" Scope.exports 2 1).exportsItems.length = 2
    ∧ min 2 (2 - 1) = 1
    ∧ (searchSdkTool twoPushExports [] "push" Scope.exports 2 1).pagination.showing = 1
    ∧ ¬ (searchSdkTool twoPushExports [] "push" Scope.exports 2 1).exportsItems.length
          = min 2 (2 - 1)
    ∧ (searchSdkTool twoPushExports [] "push" Scope.exports 2 1).pagination.has_more
        = false
    ∧ (searchSdkTool twoPushExports [] "push" Scope.exports 2 1).pagination.next_offset
        = none := by
  refine ⟨?_, by decide, ?_, ?_, ?_, ?_⟩ <;> decide

/-! ## C3: `get_sdk_api` not-found behaviour -/

/-- Tail of the not-found message of the `get_sdk_api` handler (everything
after the interpolated name). -/
def sdkNotFoundTail : String :=
  "\" not found in @pushchain/core or @pushchain/ui-kit.\n\nTry:\n- Check spelling and try again\n- Use \x27search_sdk\x27 tool to find similar names\n- Use \x27list_all_exports\x27 to see available APIs"

/-- The not-found message `API "${params.name}" not found in ...` of the
`get_sdk_api` handler. -/
def getSdkApiNotFoundMsg (name : String) : String :=
  "API \"" ++ (name ++ sdkNotFoundTail)

/-- The `get_sdk_api` handler after validation (`src/index-sdk.js`): resolve
the package filter, run `findExport`, return the not-found error envelope on
zero matches, otherwise render the result array (regex-based definition
extraction abstracted as `render`) and apply the character limit. -/
def getSdkApi (ex : SdkExports) (render : List FoundExport → String)
    (name pkg : String) : ToolResponse :=
  let packageFilter := if pkg = "any" then none else some pkg
  let exports := findExport ex name packageFilter
  if exports.isEmpty then
    createErrorResponse (getSdkApiNotFoundMsg name) true
  else
    createSuccessResponse (enforceCharacterLimit (render exports) CHARACTER_LIMIT).text

/-- Store containing only `PushClient` (class), used for C3. -/
def pushClientStore : SdkExports :=
  ⟨[], [⟨"PushClient", "packages/core/src/client.ts"⟩], [], [], []⟩

/-- **C3 counterexample.** Looking up the syntactically valid but nonexistent
name `DoesNotExist123` does NOT produce the success envelope (whose `isError`
field is absent): the handler returns the envelope built by
`createErrorResponse`, whose `isError` flag is `true`. -/
theorem getSdkApi_notFound_not_success_envelope :
    (getSdkApi pushClientStore (fun _ => "") "DoesNotExist123" "any").isError
        = some true
    ∧ ∀ t : String,
        getSdkApi pushClientStore (fun _ => "") "DoesNotExist123" "any"
          ≠ createSuccessResponse t := by
  have h1 : (getSdkApi pushClientStore (fun _ => "") "DoesNotExist123" "any").isError
      = some true := by decide
  refine ⟨h1, ?_⟩
  intro t h
  rw [h] at h1
  simp [createSuccessResponse] at h1

theorem isPrefixOf_cons_false {a b : Char} (h : (a == b) = false) (l m : List Char) :
    (a :: l).isPrefixOf (b :: m) = false := by
  simp [List.isPrefixOf_cons₂, h]

/-- **C3 (amended).** When the validated query matches zero records, the
`get_sdk_api` handler returns — without throwing and without any
ValidationError — the ordinary tool-response envelope carrying the not-found
message (so its `isError` flag is `true`, i.e. it is the error-flagged
envelope, not the success envelope): the message contains "not found" and the
actionable alternatives `search_sdk` and `list_all_exports`, and it is not a
validation-error message (those start with "Error: Invalid input
parameters"). -/
theorem getSdkApi_not_found (ex : SdkExports) (render : List FoundExport → String)
    (name pkg : String)
    (h : findExport ex name (if pkg = "any" then none else some pkg) = []) :
    getSdkApi ex render name pkg = createErrorResponse (getSdkApiNotFoundMsg name) true
    ∧ (getSdkApi ex render name pkg).isError = some true
    ∧ containsSub (getSdkApiNotFoundMsg name).data ("not found").data = true
    ∧ containsSub (getSdkApiNotFoundMsg name).data ("search_sdk").data = true
    ∧ containsSub (getSdkApiNotFoundMsg name).data ("list_all_exports").data = true
    ∧ ("Error: Invalid input parameters").data.isPrefixOf
        (getSdkApiNotFoundMsg name).data = false := by
  have hmain : getSdkApi ex render name pkg
      = createErrorResponse (getSdkApiNotFoundMsg name) true := by
    simp [getSdkApi, h]
  have hd : (getSdkApiNotFoundMsg name).data
      = ("API \"").data ++ (name.data ++ sdkNotFoundTail.data) := by
    simp [getSdkApiNotFoundMsg]
  refine ⟨hmain, by rw [hmain]; rfl, ?_, ?_, ?_, ?_⟩
  · rw [hd]
    exact containsSub_append_left _ (containsSub_append_left _ (by decide))
  · rw [hd]
    exact containsSub_append_left _ (containsSub_append_left _ (by decide))
  · rw [hd]
    exact containsSub_append_left _ (containsSub_append_left _ (by decide))
  · rw [hd]
    exact isPrefixOf_cons_false (by decide) _ _

theorem getSdkApi_not_found_witness :
    (findExport pushClientStore "DoesNotExist123"
        (if ("any" : String) = "any" then none else some "any") = [])
    ∧ (getSdkApi pushClientStore (fun _ => "x") "DoesNotExist123" "any"
          = createErrorResponse (getSdkApiNotFoundMsg "DoesNotExist123") true
      ∧ (getSdkApi pushClientStore (fun _ => "x") "DoesNotExist123" "any").isError
          = some true
      ∧ containsSub (getSdkApiNotFoundMsg "DoesNotExist123").data ("not found").data = true
      ∧ containsSub (getSdkApiNotFoundMsg "DoesNotExist123").data ("search_sdk").data = true
      ∧ containsSub (getSdkApiNotFoundMsg "DoesNotExist123").data
          ("list_all_exports").data = true
      ∧ ("Error: Invalid input parameters").data.isPrefixOf
          (getSdkApiNotFoundMsg "DoesNotExist123").data = false) :=
  ⟨by decide,
   getSdkApi_not_found pushClientStore (fun _ => "x") "DoesNotExist123" "any" (by decide)⟩

/-! ## Schema validation and tool dispatch

The Zod `.strict()` object schemas (`src/schemas/docs-schemas.js` and the SDK
schema module) are modelled at outcome level: parsing a raw argument object
fails whenever any key is not declared by the schema (Zod additionally
collects per-field issues, but any unrecognized key already makes `parse`
throw, which is the only fact the dispatch depends on here).  The per-field
checks of the declared keys are kept abstract as a `fieldCheck` parameter. -/

/-- Raw JSON argument values. -/
inductive JsonValue
  | str (s : String)
  | num (n : Int)
  | boolean (b : Bool)
  | null
deriving DecidableEq

/-- A raw argument object, as a key/value list. -/
abbrev Args := List (String × JsonValue)

/-- A Zod validation failure. -/
inductive ZodError
  | unrecognizedKeys (keys : List String)
  | fieldIssues (xs : List (String × String))
deriving DecidableEq

/-- The keys of `args` that the schema does not declare (these trigger the
`unrecognized_keys` issue of a `.strict()` Zod object). -/
def unrecognizedKeysOf (declared : List String) (args : Args) : List String :=
  (args.map Prod.fst).filter (fun k => !declared.contains k)

/-- The `(path, message)` issue list of a `ZodError`. -/
def zodIssues : ZodError → List (String × String)
  | .unrecognizedKeys ks =>
      [("", "Unrecognized key(s) in object: "
        ++ String.intercalate ", " (ks.map (fun k => "\x27" ++ (k ++ "\x27"))))]
  | .fieldIssues xs => xs

/-- `handleValidationError(error)` from `src/utils/error-handler.js`. -/
def handleValidationError (e : ZodError) : String :=
  if (zodIssues e).isEmpty then
    "Error: Invalid input parameters. Please check your input and try again."
  else
    "Error: Invalid input parameters:\n"
      ++ (String.intercalate "\n"
            ((zodIssues e).map (fun i => "  - " ++ (i.1 ++ (": " ++ i.2))))
          ++ "\n\nPlease check the parameter types and constraints, then try again.")

/-- A registered tool: its name and the keys its `.strict()` input schema
declares. -/
structure ToolDef where
  name : String
  declaredKeys : List String
deriving DecidableEq

/-- The four tools of the documentation server (`src/index.js`), with the
keys declared by `docs-schemas.js`. -/
def docsTools : List ToolDef :=
  [⟨"list_push_chain_docs", ["category"]⟩,
   ⟨"get_push_chain_doc", ["path", "response_format"]⟩,
   ⟨"search_push_chain_docs", ["query", "limit", "response_format"]⟩,
   ⟨"get_code_snippets", ["path", "language", "limit"]⟩]

/-- The nine tools of the SDK server (`src/index-sdk.js`), with the keys
declared by the SDK schema module. -/
def sdkTools : List ToolDef :=
  [⟨"get_sdk_api", ["name", "package"]⟩,
   ⟨"search_sdk", ["query", "scope", "limit", "offset"]⟩,
   ⟨"get_package_info", ["package"]⟩,
   ⟨"get_type_definition", ["name"]⟩,
   ⟨"get_source_file", ["path"]⟩,
   ⟨"list_all_exports", ["package", "type"]⟩,
   ⟨"find_usage_examples", ["api_name", "limit"]⟩,
   ⟨"get_core_classes", []⟩,
   ⟨"get_ui_components", []⟩]

/-- The thirteen tools of the unified server (documentation tools first, as
registered there). -/
def unifiedTools : List ToolDef :=
  docsTools ++ sdkTools

/-- `Schema.parse(args)`: reject any unrecognized key, then run the declared
per-field checks. -/
def strictValidate (t : ToolDef) (fieldCheck : String → Args → Except ZodError Unit)
    (args : Args) : Except ZodError Unit :=
  let unknown := unrecognizedKeysOf t.declaredKeys args
  if unknown.isEmpty then fieldCheck t.name args
  else Except.error (ZodError.unrecognizedKeys unknown)

/-- `CallToolRequestSchema` handler of the standalone servers: the `switch`
over tool names with per-case `Schema.parse` in a `try`/`catch` returning
`createErrorResponse(handleValidationError(error))` on `ZodError`, and
`default: return createErrorResponse(\x60Unknown tool: ${name}\x60)`.  The
per-tool body after successful validation is the `runTool` parameter. -/
def dispatchStandalone (tools : List ToolDef)
    (fieldCheck : String → Args → Except ZodError Unit)
    (runTool : String → Args → ToolResponse) (name : String) (args : Args) :
    ToolResponse :=
  match tools.find? (fun td => td.name == name) with
  | none => createErrorResponse ("Unknown tool: " ++ name) true
  | some t =>
    match strictValidate t fieldCheck args with
    | Except.error e => createErrorResponse (handleValidationError e) true
    | Except.ok _ => runTool name args

/-- JSON-RPC error code categories of the unified server's `McpError`. -/
inductive McpErrorCode
  | InvalidParams
  | MethodNotFound
  | InternalError
deriving DecidableEq

structure McpError where
  code : McpErrorCode
  message : String
deriving DecidableEq

/-- `CallToolRequestSchema` handler of the unified server: `ZodError` bubbles
to the outer catch and becomes `McpError(ErrorCode.InvalidParams,
handleValidationError(error))`; an unregistered name throws
`McpError(ErrorCode.MethodNotFound, \x60Unknown tool: ${name}\x60)`. -/
def dispatchUnified (tools : List ToolDef)
    (fieldCheck : String → Args → Except ZodError Unit)
    (runTool : String → Args → ToolResponse) (name : String) (args : Args) :
    Except McpError ToolResponse :=
  match tools.find? (fun td => td.name == name) with
  | none => Except.error ⟨McpErrorCode.MethodNotFound, "Unknown tool: " ++ name⟩
  | some t =>
    match strictValidate t fieldCheck args with
    | Except.error e => Except.error ⟨McpErrorCode.InvalidParams, handleValidationError e⟩
    | Except.ok _ => Except.ok (runTool name args)

theorem find?_name_eq (tools : List ToolDef) (t : ToolDef) (ht : t ∈ tools)
    (hnodup : (tools.map ToolDef.name).Nodup) :
    tools.find? (fun td => td.name == t.name) = some t := by
  induction tools with
  | nil => cases ht
  | cons t0 rest ih =>
    rcases List.mem_cons.mp ht with h0 | hrest
    · subst h0
      simp [List.find?]
    · have hne : (t0.name == t.name) = false := by
        rw [List.map_cons, List.nodup_cons] at hnodup
        have : t.name ∈ rest.map ToolDef.name := List.mem_map_of_mem ToolDef.name hrest
        rcases hnodup with ⟨habs, _⟩
        by_contra hcontra
        have heq : t0.name = t.name := by
          cases hb : (t0.name == t.name) with
          | false => exact absurd hb hcontra
          | true => exact eq_of_beq hb
        exact habs (heq ▸ this)
      rw [List.map_cons, List.nodup_cons] at hnodup
      simp only [List.find?, hne]
      exact ih hrest hnodup.2

/-! ## C4: extra unrecognized fields are always rejected -/

/-- **C4.** For every tool declared in any of the three registries and every
raw argument object containing a key the tool's `.strict()` schema does not
declare, validation fails: the standalone dispatch returns the
ValidationError envelope (`isError = true`) and the unified dispatch raises
an `InvalidParams` protocol error.  The result is the same for every possible
per-field check and every possible tool body (`fieldCheck`, `runTool`), so no
lookup is performed, the unknown field is not dropped, and the call never
yields a successful lookup. -/
theorem strict_schema_rejects_unknown_field
    (tools : List ToolDef) (t : ToolDef)
    (fieldCheck : String → Args → Except ZodError Unit)
    (runTool runToolU : String → Args → ToolResponse)
    (args : Args) (k : String) (v : JsonValue)
    (hreg : tools = docsTools ∨ tools = sdkTools ∨ tools = unifiedTools)
    (ht : t ∈ tools) (hkv : (k, v) ∈ args)
    (hk : t.declaredKeys.contains k = false) :
    dispatchStandalone tools fieldCheck runTool t.name args
        = createErrorResponse
            (handleValidationError
              (ZodError.unrecognizedKeys (unrecognizedKeysOf t.declaredKeys args)))
            true
    ∧ dispatchUnified tools fieldCheck runToolU t.name args
        = Except.error
            ⟨McpErrorCode.InvalidParams,
             handleValidationError
               (ZodError.unrecognizedKeys (unrecognizedKeysOf t.declaredKeys args))⟩
    ∧ (dispatchStandalone tools fieldCheck runTool t.name args).isError = some true := by
  have hnodup : (tools.map ToolDef.name).Nodup := by
    rcases hreg with h | h | h <;> rw [h] <;> decide
  have hfind : tools.find? (fun td => td.name == t.name) = some t :=
    find?_name_eq tools t ht hnodup
  have hkmem : k ∈ unrecognizedKeysOf t.declaredKeys args := by
    apply List.mem_filter.mpr
    constructor
    · exact List.mem_map_of_mem Prod.fst hkv
    · simpa using hk
  have hne : (unrecognizedKeysOf t.declaredKeys args).isEmpty = false := by
    cases hu : unrecognizedKeysOf t.declaredKeys args with
    | nil => rw [hu] at hkmem; cases hkmem
    | cons a l => simp [List.isEmpty]
  have hval : strictValidate t fieldCheck args
      = Except.error (ZodError.unrecognizedKeys (unrecognizedKeysOf t.declaredKeys args)) := by
    simp [strictValidate, hne]
  refine ⟨?_, ?_, ?_⟩
  · simp [dispatchStandalone, hfind, hval]
  · simp [dispatchUnified, hfind, hval]
  · simp [dispatchStandalone, hfind, hval, createErrorResponse]

theorem strict_schema_rejects_unknown_field_witness :
    ((sdkTools = docsTools ∨ sdkTools = sdkTools ∨ sdkTools = unifiedTools)
      ∧ (⟨"get_sdk_api", ["name", "package"]⟩ : ToolDef) ∈ sdkTools
      ∧ (("bogus", JsonValue.null) : String × JsonValue)
          ∈ [("name", JsonValue.str "PushClient"), ("bogus", JsonValue.null)]
      ∧ (["name", "package"] : List String).contains "bogus" = false)
    ∧ (dispatchStandalone sdkTools (fun _ _ => Except.ok ())
          (fun _ _ => createSuccessResponse "looked up") "get_sdk_api"
          [("name", JsonValue.str "PushClient"), ("bogus", JsonValue.null)]
        = createErrorResponse
            (handleValidationError
              (ZodError.unrecognizedKeys
                (unrecognizedKeysOf ["name", "package"]
                  [("name", JsonValue.str "PushClient"), ("bogus", JsonValue.null)])))
            true
      ∧ dispatchUnified sdkTools (fun _ _ => Except.ok ())
          (fun _ _ => createSuccessResponse "looked up") "get_sdk_api"
          [("name", JsonValue.str "PushClient"), ("bogus", JsonValue.null)]
        = Except.error
            ⟨McpErrorCode.InvalidParams,
             handleValidationError
               (ZodError.unrecognizedKeys
                 (unrecognizedKeysOf ["name", "package"]
                   [("name", JsonValue.str "PushClient"), ("bogus", JsonValue.null)]))⟩
      ∧ (dispatchStandalone sdkTools (fun _ _ => Except.ok ())
          (fun _ _ => createSuccessResponse "looked up") "get_sdk_api"
          [("name", JsonValue.str "PushClient"), ("bogus", JsonValue.null)]).isError
        = some true) :=
  ⟨⟨Or.inr (Or.inl rfl), by decide, by decide, by decide⟩,
   strict_schema_rejects_unknown_field sdkTools
     ⟨"get_sdk_api", ["name", "package"]⟩ (fun _ _ => Except.ok ())
     (fun _ _ => createSuccessResponse "looked up")
     (fun _ _ => createSuccessResponse "looked up")
     [("name", JsonValue.str "PushClient"), ("bogus", JsonValue.null)]
     "bogus" JsonValue.null (Or.inr (Or.inl rfl)) (by decide) (by decide) (by decide)⟩

/-! ## C9: unknown tool names never reach any pipeline -/

/-- **C9.** A tool name not present in the registry produces a distinct
unknown-tool failure in all three server variants — the standalone servers
return the `Unknown tool: <name>` error envelope and the unified server
raises a MethodNotFound-coded protocol error — for every possible validator
and tool body, so no validation or lookup pipeline runs. -/
theorem unknown_tool_distinct_failure
    (fieldCheck : String → Args → Except ZodError Unit)
    (runTool runToolU : String → Args → ToolResponse)
    (name : String) (args : Args)
    (h : ∀ t ∈ unifiedTools, t.name ≠ name) :
    dispatchStandalone docsTools fieldCheck runTool name args
        = createErrorResponse ("Unknown tool: " ++ name) true
    ∧ dispatchStandalone sdkTools fieldCheck runTool name args
        = createErrorResponse ("Unknown tool: " ++ name) true
    ∧ dispatchUnified unifiedTools fieldCheck runToolU name args
        = Except.error ⟨McpErrorCode.MethodNotFound, "Unknown tool: " ++ name⟩ := by
  have hdocs : ∀ t ∈ docsTools, t.name ≠ name := by
    intro t htin
    exact h t (List.mem_append.mpr (Or.inl htin))
  have hsdk : ∀ t ∈ sdkTools, t.name ≠ name := by
    intro t htin
    exact h t (List.mem_append.mpr (Or.inr htin))
  have hfind : ∀ (tools : List ToolDef), (∀ t ∈ tools, t.name ≠ name) →
      tools.find? (fun td => td.name == name) = none := by
    intro tools htools
    apply List.find?_eq_none.mpr
    intro t htin
    simp only [ne_eq, beq_iff_eq]
    exact htools t htin
  refine ⟨?_, ?_, ?_⟩
  · simp [dispatchStandalone, hfind docsTools hdocs]
  · simp [dispatchStandalone, hfind sdkTools hsdk]
  · simp [dispatchUnified, hfind unifiedTools h]

theorem unknown_tool_distinct_failure_witness :
    (∀ t ∈ unifiedTools, t.name ≠ "not_a_real_tool")
    ∧ (dispatchStandalone docsTools (fun _ _ => Except.ok ())
          (fun _ _ => createSuccessResponse "ran") "not_a_real_tool" []
        = createErrorResponse ("Unknown tool: " ++ "not_a_real_tool") true
      ∧ dispatchStandalone sdkTools (fun _ _ => Except.ok ())
          (fun _ _ => createSuccessResponse "ran") "not_a_real_tool" []
        = createErrorResponse ("Unknown tool: " ++ "not_a_real_tool") true
      ∧ dispatchUnified unifiedTools (fun _ _ => Except.ok ())
          (fun _ _ => createSuccessResponse "ran") "not_a_real_tool" []
        = Except.error
            ⟨McpErrorCode.MethodNotFound, "Unknown tool: " ++ "not_a_real_tool"⟩) :=
  ⟨by decide,
   unknown_tool_distinct_failure (fun _ _ => Except.ok ())
     (fun _ _ => createSuccessResponse "ran") (fun _ _ => createSuccessResponse "ran")
     "not_a_real_tool" [] (by decide)⟩

/-! ## Documentation data model (`src/index.js` and the unified server)

A documentation entry carries its `name`, `path` and (cached or fetched)
`content`; the remaining fields of the JS object (`htmlUrl`, `downloadUrl`,
metadata) play no role in the claims below. -/

structure DocFile where
  name : String
  path : String
  content : String
deriving DecidableEq

/-- The category enum of `ListDocsInputSchema`. -/
inductive DocCategory
  | tutorials
  | setup
  | build
  | uiKit
  | deepDives
  | all
deriving DecidableEq

/-- The directory segment each `switch` case of the category filter tests
for (`""` for `all`, which bypasses the filter). -/
def categorySegment : DocCategory → String
  | DocCategory.tutorials => "/01-tutorials/"
  | DocCategory.setup => "/02-setup/"
  | DocCategory.build => "/03-build/"
  | DocCategory.uiKit => "/04-ui-kit/"
  | DocCategory.deepDives => "/05-deep-dives/"
  | DocCategory.all => ""

/-- The `if (category !== "all") filteredDocs = docs.filter(...)` step of the
`list_push_chain_docs` handler. -/
def filterDocsByCategory (docs : List DocFile) (category : DocCategory) : List DocFile :=
  if category = DocCategory.all then docs
  else docs.filter (fun doc => strIncludes (lowerStr doc.path) (categorySegment category))

/-- The `organized` buckets of the `list_push_chain_docs` handler. -/
structure OrganizedDocs where
  tutorials : List DocFile
  setup : List DocFile
  build : List DocFile
  uiKit : List DocFile
  deepDives : List DocFile
  other : List DocFile
deriving DecidableEq

/-- The `for (const doc of filteredDocs)` `if`/`else if` chain that fills the
`organized` buckets, in document order. -/
def organizeDocs : List DocFile → OrganizedDocs
  | [] => ⟨[], [], [], [], [], []⟩
  | doc :: rest =>
    let o := organizeDocs rest
    let p := lowerStr doc.path
    if strIncludes p "/01-tutorials/" then
      ⟨doc :: o.tutorials, o.setup, o.build, o.uiKit, o.deepDives, o.other⟩
    else if strIncludes p "/02-setup/" then
      ⟨o.tutorials, doc :: o.setup, o.build, o.uiKit, o.deepDives, o.other⟩
    else if strIncludes p "/03-build/" then
      ⟨o.tutorials, o.setup, doc :: o.build, o.uiKit, o.deepDives, o.other⟩
    else if strIncludes p "/04-ui-kit/" then
      ⟨o.tutorials, o.setup, o.build, doc :: o.uiKit, o.deepDives, o.other⟩
    else if strIncludes p "/05-deep-dives/" then
      ⟨o.tutorials, o.setup, o.build, o.uiKit, doc :: o.deepDives, o.other⟩
    else
      ⟨o.tutorials, o.setup, o.build, o.uiKit, o.deepDives, doc :: o.other⟩

/-- The response payload of `list_push_chain_docs` (total, filtered set, and
organized buckets). -/
structure ListDocsResult where
  total : Nat
  filtered : List DocFile
  categories : OrganizedDocs
deriving DecidableEq

/-- The `list_push_chain_docs` handler after validation. -/
def listPushChainDocs (docs : List DocFile) (category : DocCategory) : ListDocsResult :=
  let filtered := filterDocsByCategory docs category
  ⟨filtered.length, filtered, organizeDocs filtered⟩

/-! ## C8: category filtering of `list_push_chain_docs` -/

/-- Scenario data: five documents under the tutorials path and three under
the setup path. -/
def scenarioDocs : List DocFile :=
  [⟨"t1.mdx", "docs/chain/01-tutorials/t1.mdx", ""⟩,
   ⟨"t2.mdx", "docs/chain/01-tutorials/t2.mdx", ""⟩,
   ⟨"t3.mdx", "docs/chain/01-tutorials/t3.mdx", ""⟩,
   ⟨"t4.mdx", "docs/chain/01-tutorials/t4.mdx", ""⟩,
   ⟨"t5.mdx", "docs/chain/01-tutorials/t5.mdx", ""⟩,
   ⟨"s1.mdx", "docs/chain/02-setup/s1.mdx", ""⟩,
   ⟨"s2.mdx", "docs/chain/02-setup/s2.mdx", ""⟩,
   ⟨"s3.mdx", "docs/chain/02-setup/s3.mdx", ""⟩]

/-- **C8.** For every non-`all` category `c`, `list_push_chain_docs` returns
exactly the documents whose (lower-cased) path contains `c`'s directory
segment — every returned document contains the segment, no document lacking
it is returned — and the reported total is their count.  In particular, on a
store with 5 tutorials documents and 3 setup documents, `{category: setup}`
returns exactly the 3 setup entries with total 3, none of which lies under
the tutorials segment. -/
theorem listPushChainDocs_category_filter (docs : List DocFile) (c : DocCategory)
    (hc : c ≠ DocCategory.all) :
    ((listPushChainDocs docs c).filtered
        = docs.filter (fun d => strIncludes (lowerStr d.path) (categorySegment c))
      ∧ (listPushChainDocs docs c).total = (listPushChainDocs docs c).filtered.length
      ∧ (∀ d ∈ (listPushChainDocs docs c).filtered,
          strIncludes (lowerStr d.path) (categorySegment c) = true)
      ∧ (∀ d, strIncludes (lowerStr d.path) (categorySegment c) = false →
          d ∉ (listPushChainDocs docs c).filtered))
    ∧ ((listPushChainDocs scenarioDocs DocCategory.setup).filtered
        = [⟨"s1.mdx", "docs/chain/02-setup/s1.mdx", ""⟩,
           ⟨"s2.mdx", "docs/chain/02-setup/s2.mdx", ""⟩,
           ⟨"s3.mdx", "docs/chain/02-setup/s3.mdx", ""⟩]
      ∧ (listPushChainDocs scenarioDocs DocCategory.setup).total = 3
      ∧ ∀ d ∈ (listPushChainDocs scenarioDocs DocCategory.setup).filtered,
          strIncludes (lowerStr d.path) "/01-tutorials/" = false) := by
  have hfil : (listPushChainDocs docs c).filtered
      = docs.filter (fun d => strIncludes (lowerStr d.path) (categorySegment c)) := by
    simp [listPushChainDocs, filterDocsByCategory, hc]
  refine ⟨⟨hfil, rfl, ?_, ?_⟩, by decide, by decide, by decide⟩
  · intro d hd
    rw [hfil] at hd
    exact (List.mem_filter.mp hd).2
  · intro d hd hmem
    rw [hfil] at hmem
    have := (List.mem_filter.mp hmem).2
    rw [hd] at this
    cases this

theorem listPushChainDocs_category_filter_witness :
    (DocCategory.setup ≠ DocCategory.all)
    ∧ (((listPushChainDocs scenarioDocs DocCategory.setup).filtered
          = scenarioDocs.filter
              (fun d => strIncludes (lowerStr d.path) (categorySegment DocCategory.setup))
        ∧ (listPushChainDocs scenarioDocs DocCategory.setup).total
            = (listPushChainDocs scenarioDocs DocCategory.setup).filtered.length
        ∧ (∀ d ∈ (listPushChainDocs scenarioDocs DocCategory.setup).filtered,
            strIncludes (lowerStr d.path) (categorySegment DocCategory.setup) = true)
        ∧ (∀ d, strIncludes (lowerStr d.path) (categorySegment DocCategory.setup) = false →
            d ∉ (listPushChainDocs scenarioDocs DocCategory.setup).filtered))
      ∧ ((listPushChainDocs scenarioDocs DocCategory.setup).filtered
          = [⟨"s1.mdx", "docs/chain/02-setup/s1.mdx", ""⟩,
             ⟨"s2.mdx", "docs/chain/02-setup/s2.mdx", ""⟩,
             ⟨"s3.mdx", "docs/chain/02-setup/s3.mdx", ""⟩]
        ∧ (listPushChainDocs scenarioDocs DocCategory.setup).total = 3
        ∧ ∀ d ∈ (listPushChainDocs scenarioDocs DocCategory.setup).filtered,
            strIncludes (lowerStr d.path) "/01-tutorials/" = false)) :=
  ⟨by decide, listPushChainDocs_category_filter scenarioDocs DocCategory.setup (by decide)⟩

/-! ## C6: ordering of `search_push_chain_docs` results -/

/-- `matchType` tag of a documentation search result. -/
inductive MatchType
  | filename
  | content
deriving DecidableEq

/-- One element of the `results` array of the `search_push_chain_docs`
handler (`{...doc, matchType}` plus `preview` for content matches). -/
structure DocSearchResult where
  doc : DocFile
  matchType : MatchType
  preview : Option String
deriving DecidableEq

/-- First pass of the handler: `doc.name.toLowerCase().includes(query) ||
doc.path.toLowerCase().includes(query)` over the docs in store order. -/
def docFilenameMatches (docs : List DocFile) (q : String) : List DocSearchResult :=
  docs.filterMap (fun d =>
    if strIncludes (lowerStr d.name) q || strIncludes (lowerStr d.path) q then
      some ⟨d, MatchType.filename, none⟩
    else none)

/-- `matchingLines.slice(0, 3).join('\n')` preview of a content match. -/
def docPreview (d : DocFile) (q : String) : String :=
  joinLines
    (((splitLines d.content).filter (fun line => strIncludes (lowerStr line) q)).take 3)

/-- Second pass: `if (results.length < 5)` the handler walks the docs again,
skipping docs already in `results` (`continue` also skips the break check),
appending a content match when `doc.content.toLowerCase().includes(query)`,
and breaking as soon as `results.length >= limit`. -/
def docContentPass (q : String) (limit : Nat) :
    List DocFile → List DocSearchResult → List DocSearchResult
  | [], results => results
  | d :: rest, results =>
    if results.any (fun r => r.doc.path == d.path) then
      docContentPass q limit rest results
    else
      let results' :=
        if strIncludes (lowerStr d.content) q then
          results ++ [⟨d, MatchType.content, some (docPreview d q)⟩]
        else results
      if limit ≤ results'.length then results'
      else docContentPass q limit rest results'

/-- The `search_push_chain_docs` handler after validation: filename pass,
conditional content pass (only when fewer than 5 filename matches), then
`truncateArray(results, limit)`. -/
def searchPushChainDocs (docs : List DocFile) (query : String) (limit : Nat) :
    List DocSearchResult :=
  let q := lowerStr query
  let results := docFilenameMatches docs q
  let results2 := if results.length < 5 then docContentPass q limit docs results else results
  (truncateArray results2 limit "documentation files").items

/-- The content pass only ever appends content-tagged results, drawn from the
document list in order. -/
theorem docContentPass_shape (q : String) (limit : Nat) :
    ∀ (ds : List DocFile) (res : List DocSearchResult),
      ∃ cs, docContentPass q limit ds res = res ++ cs
        ∧ (∀ r ∈ cs, r.matchType = MatchType.content)
        ∧ (cs.map DocSearchResult.doc).Sublist ds := by
  intro ds
  induction ds with
  | nil =>
    intro res
    exact ⟨[], by simp [docContentPass], by simp, by simp⟩
  | cons d rest ih =>
    intro res
    by_cases hskip : (res.any (fun r => r.doc.path == d.path)) = true
    · obtain ⟨cs, hcs, hct, hsub⟩ := ih res
      exact ⟨cs, by rw [docContentPass, if_pos hskip, hcs], hct, hsub.cons d⟩
    · cases hmatch : strIncludes (lowerStr d.content) q with
      | false =>
        by_cases hbreak : limit ≤ res.length
        · refine ⟨[], ?_, by simp, by simp⟩
          rw [docContentPass, if_neg hskip]
          simp only [hmatch, if_neg, Bool.false_eq_true, if_false]
          rw [if_pos hbreak, List.append_nil]
        · obtain ⟨cs, hcs, hct, hsub⟩ := ih res
          refine ⟨cs, ?_, hct, hsub.cons d⟩
          rw [docContentPass, if_neg hskip]
          simp only [hmatch, Bool.false_eq_true, if_false]
          rw [if_neg hbreak, hcs]
      | true =>
        by_cases hbreak :
            limit ≤ (res
              ++ [(⟨d, MatchType.content, some (docPreview d q)⟩ : DocSearchResult)]).length
        · refine ⟨[(⟨d, MatchType.content, some (docPreview d q)⟩ : DocSearchResult)],
            ?_, ?_, ?_⟩
          · rw [docContentPass, if_neg hskip]
            simp only [hmatch, if_true]
            rw [if_pos hbreak]
          · intro r hr
            rcases List.mem_singleton.mp hr with rfl
            rfl
          · exact (List.nil_sublist rest).cons₂ d
        · obtain ⟨cs, hcs, hct, hsub⟩ :=
            ih (res ++ [(⟨d, MatchType.content, some (docPreview d q)⟩ : DocSearchResult)])
          refine ⟨(⟨d, MatchType.content, some (docPreview d q)⟩ : DocSearchResult) :: cs,
            ?_, ?_, ?_⟩
          · rw [docContentPass, if_neg hskip]
            simp only [hmatch, if_true]
            rw [if_neg hbreak, hcs, List.append_assoc, List.singleton_append]
          · intro r hr
            rcases List.mem_cons.mp hr with rfl | hr2
            · rfl
            · exact hct r hr2
          · rw [List.map_cons]
            exact hsub.cons₂ d

/-- `filterMap` with a doc-preserving function yields a sublist of the
original document order. -/
theorem filterMap_doc_sublist (f : DocFile → Option DocSearchResult)
    (hf : ∀ d r, f d = some r → r.doc = d) (docs : List DocFile) :
    ((docs.filterMap f).map DocSearchResult.doc).Sublist docs := by
  induction docs with
  | nil => simp
  | cons d rest ih =>
    cases hfd : f d with
    | none =>
      rw [List.filterMap_cons, hfd]
      exact ih.cons d
    | some r =>
      rw [List.filterMap_cons, hfd, List.map_cons, hf d r hfd]
      exact ih.cons₂ d

/-- **C6.** Every result list produced by `search_push_chain_docs` splits as
a block of filename/path matches followed by a block of content matches (so
every filename match appears ahead of every content match); the documents of
each block appear in Data Store insertion order (sublist of the store, no
re-sorting); and when 5 or more filename matches were found the content pass
is not attempted, so the list carries no content match at all. -/
theorem searchPushChainDocs_ordering (docs : List DocFile) (query : String)
    (limit : Nat) :
    ∃ fns cts,
      searchPushChainDocs docs query limit = fns ++ cts
      ∧ (∀ r ∈ fns, r.matchType = MatchType.filename)
      ∧ (∀ r ∈ cts, r.matchType = MatchType.content)
      ∧ (fns.map DocSearchResult.doc).Sublist docs
      ∧ (cts.map DocSearchResult.doc).Sublist docs
      ∧ (5 ≤ (docFilenameMatches docs (lowerStr query)).length → cts = []) := by
  have hfn_type : ∀ r ∈ docFilenameMatches docs (lowerStr query),
      r.matchType = MatchType.filename := by
    intro r hr
    obtain ⟨d, _, hfd⟩ := List.mem_filterMap.mp hr
    by_cases hcond :
        (strIncludes (lowerStr d.name) (lowerStr query)
          || strIncludes (lowerStr d.path) (lowerStr query)) = true
    · rw [if_pos hcond] at hfd
      cases hfd
      rfl
    · rw [if_neg hcond] at hfd
      cases hfd
  have hfn_doc : ((docFilenameMatches docs (lowerStr query)).map
      DocSearchResult.doc).Sublist docs := by
    apply filterMap_doc_sublist
    intro d r hfd
    by_cases hcond :
        (strIncludes (lowerStr d.name) (lowerStr query)
          || strIncludes (lowerStr d.path) (lowerStr query)) = true
    · rw [if_pos hcond] at hfd
      cases hfd
      rfl
    · rw [if_neg hcond] at hfd
      cases hfd
  by_cases h5 : (docFilenameMatches docs (lowerStr query)).length < 5
  · obtain ⟨cs, hcs, hct, hsub⟩ :=
      docContentPass_shape (lowerStr query) limit docs
        (docFilenameMatches docs (lowerStr query))
    refine ⟨(docFilenameMatches docs (lowerStr query)).take limit,
      cs.take (limit - (docFilenameMatches docs (lowerStr query)).length),
      ?_, ?_, ?_, ?_, ?_, ?_⟩
    · rw [searchPushChainDocs]
      simp only [if_pos h5, truncateArray_items]
      rw [hcs, List.take_append_eq_append_take]
    · intro r hr
      exact hfn_type r (List.mem_of_mem_take hr)
    · intro r hr
      exact hct r (List.mem_of_mem_take hr)
    · rw [List.map_take]
      exact (List.take_sublist _ _).trans hfn_doc
    · rw [List.map_take]
      exact (List.take_sublist _ _).trans hsub
    · intro h5'
      omega
  · refine ⟨(docFilenameMatches docs (lowerStr query)).take limit, [],
      ?_, ?_, by simp, ?_, by simp, fun _ => rfl⟩
    · rw [searchPushChainDocs]
      simp only [if_neg h5, truncateArray_items, List.append_nil]
    · intro r hr
      exact hfn_type r (List.mem_of_mem_take hr)
    · rw [List.map_take]
      exact (List.take_sublist _ _).trans hfn_doc

/-- Store used to witness C6: one filename match and one content match. -/
def searchScenarioDocs : List DocFile :=
  [⟨"wallet.mdx", "docs/chain/03-build/wallet.mdx", "intro"⟩,
   ⟨"other.mdx", "docs/chain/03-build/other.mdx", "about wallet setup"⟩]

theorem searchPushChainDocs_ordering_witness :
    ∃ fns cts,
      searchPushChainDocs searchScenarioDocs "wallet" 20 = fns ++ cts
      ∧ (∀ r ∈ fns, r.matchType = MatchType.filename)
      ∧ (∀ r ∈ cts, r.matchType = MatchType.content)
      ∧ (fns.map DocSearchResult.doc).Sublist searchScenarioDocs
      ∧ (cts.map DocSearchResult.doc).Sublist searchScenarioDocs
      ∧ (5 ≤ (docFilenameMatches searchScenarioDocs (lowerStr "wallet")).length →
          cts = []) :=
  searchPushChainDocs_ordering searchScenarioDocs "wallet" 20

/-! ## C10: `get_ui_components` partitions the ui-kit functions -/

/-- One entry of the `components` / `hooks` / `providers` arrays. -/
structure UIEntry where
  name : String
  file : String
  signature : String
deriving DecidableEq

/-- The `uiExports` accumulator object. -/
structure UIBuckets where
  components : List UIEntry
  hooks : List UIEntry
  providers : List UIEntry
deriving DecidableEq

/-- `func.file.includes("packages/ui-kit/")`. -/
def isUiKitFile (f : ExportRecord) : Bool :=
  strIncludes f.file "packages/ui-kit/"

/-- The `{name, file, signature}` object pushed into a bucket (the regex
signature extraction is abstracted as `sig`). -/
def uiEntryOf (sig : ExportRecord → String) (f : ExportRecord) : UIEntry :=
  ⟨f.name, f.file, sig f⟩

/-- The `for (const func of coreAndUIKitExports.functions)` classification
loop of the `get_ui_components` handler: ui-kit functions starting with
`use` go to `hooks`, those containing `Provider` (and not starting with
`use`) go to `providers`, the remainder to `components`; functions outside
`packages/ui-kit/` are skipped. -/
def classifyUIExports (sig : ExportRecord → String) : List ExportRecord → UIBuckets
  | [] => ⟨[], [], []⟩
  | f :: rest =>
    let r := classifyUIExports sig rest
    if isUiKitFile f then
      if strStartsWith f.name "use" then
        ⟨r.components, uiEntryOf sig f :: r.hooks, r.providers⟩
      else if strIncludes f.name "Provider" then
        ⟨r.components, r.hooks, uiEntryOf sig f :: r.providers⟩
      else
        ⟨uiEntryOf sig f :: r.components, r.hooks, r.providers⟩
    else r

/-- The `result.summary` plus buckets of the `get_ui_components` handler. -/
structure UIComponentsSummary where
  totalComponents : Nat
  totalHooks : Nat
  totalProviders : Nat
  buckets : UIBuckets
deriving DecidableEq

/-- The `get_ui_components` handler after validation. -/
def getUIComponents (ex : SdkExports) (sig : ExportRecord → String) :
    UIComponentsSummary :=
  let b := classifyUIExports sig ex.functions
  ⟨b.components.length, b.hooks.length, b.providers.length, b⟩

theorem classifyUIExports_buckets (sig : ExportRecord → String) :
    ∀ l : List ExportRecord,
      (classifyUIExports sig l).hooks
          = ((l.filter isUiKitFile).filter
              (fun f => strStartsWith f.name "use")).map (uiEntryOf sig)
      ∧ (classifyUIExports sig l).providers
          = ((l.filter isUiKitFile).filter
              (fun f => !strStartsWith f.name "use" && strIncludes f.name "Provider")).map
              (uiEntryOf sig)
      ∧ (classifyUIExports sig l).components
          = ((l.filter isUiKitFile).filter
              (fun f => !strStartsWith f.name "use" && !strIncludes f.name "Provider")).map
              (uiEntryOf sig) := by
  intro l
  induction l with
  | nil => exact ⟨rfl, rfl, rfl⟩
  | cons f rest ih =>
    obtain ⟨ihh, ihp, ihc⟩ := ih
    cases hui : isUiKitFile f with
    | false =>
      refine ⟨?_, ?_, ?_⟩ <;>
        simp [classifyUIExports, List.filter_cons, hui, ihh, ihp, ihc]
    | true =>
      cases huse : strStartsWith f.name "use" with
      | true =>
        refine ⟨?_, ?_, ?_⟩ <;>
          simp [classifyUIExports, List.filter_cons, hui, huse, ihh, ihp, ihc]
      | false =>
        cases hprov : strIncludes f.name "Provider" with
        | true =>
          refine ⟨?_, ?_, ?_⟩ <;>
            simp [classifyUIExports, List.filter_cons, hui, huse, hprov, ihh, ihp, ihc]
        | false =>
          refine ⟨?_, ?_, ?_⟩ <;>
            simp [classifyUIExports, List.filter_cons, hui, huse, hprov, ihh, ihp, ihc]

theorem classifyUIExports_total (sig : ExportRecord → String) :
    ∀ l : List ExportRecord,
      (classifyUIExports sig l).components.length
        + (classifyUIExports sig l).hooks.length
        + (classifyUIExports sig l).providers.length
        = (l.filter isUiKitFile).length := by
  intro l
  induction l with
  | nil => rfl
  | cons f rest ih =>
    cases hui : isUiKitFile f with
    | false => simpa [classifyUIExports, List.filter_cons, hui] using ih
    | true =>
      cases huse : strStartsWith f.name "use" with
      | true =>
        simp [classifyUIExports, List.filter_cons, hui, huse]
        omega
      | false =>
        cases hprov : strIncludes f.name "Provider" with
        | true =>
          simp [classifyUIExports, List.filter_cons, hui, huse, hprov]
          omega
        | false =>
          simp [classifyUIExports, List.filter_cons, hui, huse, hprov]
          omega

/-- **C10.** `get_ui_components` partitions the ui-kit exported functions:
the hooks bucket holds exactly those whose name starts with `use`, the
providers bucket exactly those whose name contains `Provider` and does not
start with `use`, the components bucket all remaining ui-kit functions —
each in store order — and `totalComponents + totalHooks + totalProviders`
equals the number of exported functions whose file lies under
`packages/ui-kit/`. -/
theorem getUIComponents_partition (ex : SdkExports) (sig : ExportRecord → String) :
    (getUIComponents ex sig).buckets.hooks
        = ((ex.functions.filter isUiKitFile).filter
            (fun f => strStartsWith f.name "use")).map (uiEntryOf sig)
    ∧ (getUIComponents ex sig).buckets.providers
        = ((ex.functions.filter isUiKitFile).filter
            (fun f => !strStartsWith f.name "use" && strIncludes f.name "Provider")).map
            (uiEntryOf sig)
    ∧ (getUIComponents ex sig).buckets.components
        = ((ex.functions.filter isUiKitFile).filter
            (fun f => !strStartsWith f.name "use" && !strIncludes f.name "Provider")).map
            (uiEntryOf sig)
    ∧ (getUIComponents ex sig).totalComponents + (getUIComponents ex sig).totalHooks
        + (getUIComponents ex sig).totalProviders
        = (ex.functions.filter isUiKitFile).length
    ∧ (getUIComponents ex sig).totalComponents
        = (getUIComponents ex sig).buckets.components.length
    ∧ (getUIComponents ex sig).totalHooks
        = (getUIComponents ex sig).buckets.hooks.length
    ∧ (getUIComponents ex sig).totalProviders
        = (getUIComponents ex sig).buckets.providers.length := by
  obtain ⟨hh, hp, hc⟩ := classifyUIExports_buckets sig ex.functions
  exact ⟨hh, hp, hc, classifyUIExports_total sig ex.functions, rfl, rfl, rfl⟩

/-! ## C7: context windows of content matches and usage examples -/

theorem jsSlice_length (l : List α) (s e : Nat) :
    (jsSlice l s e).length = min (e - s) (l.length - s) := by
  simp [jsSlice, List.length_take, List.length_drop]

/-- Splitting a `slice(s, e)` at an interior index `i` (with `s ≤ i < e` and
`i` in range): the part before position `i`, the element at `i`, the part
after. -/
theorem jsSlice_split (l : List α) (d : α) (s i e : Nat) (hsi : s ≤ i)
    (hie : i < e) (hil : i < l.length) :
    jsSlice l s e = jsSlice l s i ++ l.getD i d :: jsSlice l (i + 1) e := by
  have hgetD : l.getD i d = l[i] := by
    rw [List.getD_eq_getElem?_getD, List.getElem?_eq_getElem hil]
    rfl
  have hA : (l.drop s).take (i - s) ++ l.drop i = l.drop s := by
    have hdd : l.drop i = (l.drop s).drop (i - s) := by
      rw [List.drop_drop]
      congr 1
      omega
    rw [hdd, List.take_append_drop]
  have hAlen : ((l.drop s).take (i - s)).length = i - s := by
    rw [List.length_take, List.length_drop]
    omega
  show (l.drop s).take (e - s) = (l.drop s).take (i - s) ++ l.getD i d :: jsSlice l (i + 1) e
  calc (l.drop s).take (e - s)
      = ((l.drop s).take (i - s) ++ l.drop i).take (e - s) := by rw [hA]
    _ = ((l.drop s).take (i - s)).take (e - s)
          ++ (l.drop i).take (e - s - ((l.drop s).take (i - s)).length) := by
        rw [List.take_append_eq_append_take]
    _ = (l.drop s).take (i - s) ++ (l.drop i).take (e - i) := by
        rw [List.take_take, hAlen]
        congr 2
        · omega
        · omega
    _ = (l.drop s).take (i - s) ++ l.getD i d :: jsSlice l (i + 1) e := by
        rw [List.drop_eq_getElem_cons hil, ← hgetD]
        congr 1
        have he : e - i = (e - (i + 1)) + 1 := by omega
        rw [he, List.take_succ_cons]
        rfl

/-- Any element produced by the `forEach` matching loop of `searchInCode`
comes from a line index `i` of the file, carries the 1-based line number
`i + 1`, the trimmed line, and the joined `slice(max(0, i-2), i+3)`
context. -/
theorem codeMatchLinesAux_mem (lowerQuery : String) (lines : List String) :
    ∀ (rest : List String) (n : Nat), rest = lines.drop n →
      ∀ m ∈ codeMatchLinesAux lowerQuery lines n rest,
        ∃ i, n ≤ i ∧ i < lines.length
          ∧ strIncludes (lowerStr (lines.getD i "")) lowerQuery = true
          ∧ m = ⟨i + 1, jsTrim (lines.getD i ""),
              joinLines (jsSlice lines (i - 2) (i + 3))⟩ := by
  intro rest
  induction rest with
  | nil =>
    intro n _ m hm
    cases hm
  | cons line rest' ih =>
    intro n hdrop m hm
    have hn : n < lines.length := by
      have hlen := congrArg List.length hdrop
      rw [List.length_cons, List.length_drop] at hlen
      omega
    have hcons := (List.drop_eq_getElem_cons hn).symm.trans hdrop.symm
    have hline : lines[n] = line := (List.cons.injEq _ _ _ _ ▸ hcons).1
    have hrest : rest' = lines.drop (n + 1) := ((List.cons.injEq _ _ _ _ ▸ hcons).2).symm
    have hgetD : lines.getD n "" = line := by
      rw [List.getD_eq_getElem?_getD, List.getElem?_eq_getElem hn, hline]
      rfl
    rw [codeMatchLinesAux] at hm
    by_cases hmatch : strIncludes (lowerStr line) lowerQuery = true
    · rw [if_pos hmatch] at hm
      rcases List.mem_cons.mp hm with rfl | hm2
      · exact ⟨n, Nat.le_refl n, hn, by rw [hgetD]; exact hmatch, by rw [hgetD]⟩
      · obtain ⟨i, hni, hi, hsi, hmi⟩ := ih (n + 1) hrest m hm2
        exact ⟨i, by omega, hi, hsi, hmi⟩
    · rw [if_neg hmatch] at hm
      obtain ⟨i, hni, hi, hsi, hmi⟩ := ih (n + 1) hrest m hm
      exact ⟨i, by omega, hi, hsi, hmi⟩

/-- Raw characterization of the `codeMatches` produced by `searchInCode`:
at most 5 matches per file, each built by the matching loop from some line
index of that file's content. -/
theorem searchInCode_codeMatches_mem (ex : SdkExports) (files : List (String × String))
    (query : String) (scope : Scope) :
    ∀ fm ∈ (searchInCode ex files query scope).codeMatches,
      fm.matchList.length ≤ 5
      ∧ ∃ content, (fm.path, content) ∈ files
        ∧ ∀ m ∈ fm.matchList,
            ∃ i, i < (splitLines content).length
              ∧ strIncludes (lowerStr ((splitLines content).getD i ""))
                  (lowerStr query) = true
              ∧ m = ⟨i + 1, jsTrim ((splitLines content).getD i ""),
                  joinLines
                    (jsSlice (splitLines content) (i - 2) (i + 3))⟩ := by
  intro fm hfm
  have hcode : (searchInCode ex files query scope).codeMatches
      = (if (scope == Scope.all || scope == Scope.code) = true then
          files.filterMap (fun pc =>
            if strIncludes (lowerStr pc.1) (lowerStr query) then none
            else if strIncludes (lowerStr pc.2) (lowerStr query) then
              if (codeMatchLines (lowerStr query) pc.2).isEmpty then none
              else some ⟨pc.1, (codeMatchLines (lowerStr query) pc.2).take 5⟩
            else none)
        else []) := rfl
  rw [hcode] at hfm
  by_cases hscope : (scope == Scope.all || scope == Scope.code) = true
  · rw [if_pos hscope] at hfm
    obtain ⟨pc, hpcmem, hg⟩ := List.mem_filterMap.mp hfm
    by_cases h1 : strIncludes (lowerStr pc.1) (lowerStr query) = true
    · rw [if_pos h1] at hg
      cases hg
    · rw [if_neg h1] at hg
      by_cases h2 : strIncludes (lowerStr pc.2) (lowerStr query) = true
      · rw [if_pos h2] at hg
        by_cases h3 : (codeMatchLines (lowerStr query) pc.2).isEmpty = true
        · rw [if_pos h3] at hg
          cases hg
        · rw [if_neg h3] at hg
          cases hg
          refine ⟨List.length_take_le 5 _, pc.2, hpcmem, ?_⟩
          intro m hm
          have hm2 : m ∈ codeMatchLines (lowerStr query) pc.2 :=
            List.mem_of_mem_take hm
          rw [codeMatchLines] at hm2
          obtain ⟨i, _, hi, hsi, hmi⟩ :=
            codeMatchLinesAux_mem (lowerStr query) (splitLines pc.2)
              (splitLines pc.2) 0 (List.drop_zero _).symm m hm2
          exact ⟨i, hi, hsi, hmi⟩
      · rw [if_neg h2] at hg
        cases hg
  · rw [if_neg hscope] at hfm
    cases hfm

/-! ### `find_usage_examples` (`src/index-sdk.js`) -/

/-- One element of the `examples` array of `find_usage_examples`. -/
structure UsageExample where
  file : String
  lineNumber : Nat
  line : String
  context : String
deriving DecidableEq

/-- The `lines.forEach((line, idx) => { if (line.includes(api_name) &&
!line.trim().startsWith('//')) examples.push({file, lineNumber: idx + 1,
line: line.trim(), context: lines.slice(Math.max(0, idx - 3), idx + 4)
.join('\n')}) })` loop of `find_usage_examples`. -/
def usageLinesAux (apiName p : String) (lines : List String) :
    Nat → List String → List UsageExample
  | _, [] => []
  | idx, line :: rest =>
    if strIncludes line apiName && !(strStartsWith (jsTrim line) "//") then
      ⟨p, idx + 1, jsTrim line, joinLines (jsSlice lines (idx - 3) (idx + 4))⟩
        :: usageLinesAux apiName p lines (idx + 1) rest
    else usageLinesAux apiName p lines (idx + 1) rest

/-- The outer `for (const [path, content] of Object.entries(...))` loop of
`find_usage_examples`, accumulating examples and breaking once
`examples.length >= limit` after a file has been processed. -/
def findUsageAux (apiName : String) (limit : Nat) :
    List (String × String) → List UsageExample → List UsageExample
  | [], acc => acc
  | pc :: rest, acc =>
    let acc' := acc ++ usageLinesAux apiName pc.1 (splitLines pc.2) 0 (splitLines pc.2)
    if limit ≤ acc'.length then acc'
    else findUsageAux apiName limit rest acc'

/-- The `find_usage_examples` handler's example list after
`truncateArray(examples, params.limit)`. -/
def findUsageExamples (files : List (String × String)) (apiName : String)
    (limit : Nat) : List UsageExample :=
  (truncateArray (findUsageAux apiName limit files []) limit "usage examples").items

theorem usageLinesAux_mem (apiName p : String) (lines : List String) :
    ∀ (rest : List String) (n : Nat), rest = lines.drop n →
      ∀ u ∈ usageLinesAux apiName p lines n rest,
        ∃ i, n ≤ i ∧ i < lines.length
          ∧ (strIncludes (lines.getD i "") apiName
              && !(strStartsWith (jsTrim (lines.getD i "")) "//")) = true
          ∧ u = ⟨p, i + 1, jsTrim (lines.getD i ""),
              joinLines (jsSlice lines (i - 3) (i + 4))⟩ := by
  intro rest
  induction rest with
  | nil =>
    intro n _ u hu
    cases hu
  | cons line rest' ih =>
    intro n hdrop u hu
    have hn : n < lines.length := by
      have hlen := congrArg List.length hdrop
      rw [List.length_cons, List.length_drop] at hlen
      omega
    have hcons := (List.drop_eq_getElem_cons hn).symm.trans hdrop.symm
    have hline : lines[n] = line := (List.cons.injEq _ _ _ _ ▸ hcons).1
    have hrest : rest' = lines.drop (n + 1) := ((List.cons.injEq _ _ _ _ ▸ hcons).2).symm
    have hgetD : lines.getD n "" = line := by
      rw [List.getD_eq_getElem?_getD, List.getElem?_eq_getElem hn, hline]
      rfl
    rw [usageLinesAux] at hu
    by_cases hmatch : (strIncludes line apiName && !(strStartsWith (jsTrim line) "//")) = true
    · rw [if_pos hmatch] at hu
      rcases List.mem_cons.mp hu with rfl | hu2
      · exact ⟨n, Nat.le_refl n, hn, by rw [hgetD]; exact hmatch, by rw [hgetD]⟩
      · obtain ⟨i, hni, hi, hsi, hui⟩ := ih (n + 1) hrest u hu2
        exact ⟨i, by omega, hi, hsi, hui⟩
    · rw [if_neg hmatch] at hu
      obtain ⟨i, hni, hi, hsi, hui⟩ := ih (n + 1) hrest u hu
      exact ⟨i, by omega, hi, hsi, hui⟩

theorem findUsageAux_mem (apiName : String) (limit : Nat) :
    ∀ (fs : List (String × String)) (acc : List UsageExample) (u : UsageExample),
      u ∈ findUsageAux apiName limit fs acc →
      u ∈ acc
      ∨ ∃ pc ∈ fs,
          u ∈ usageLinesAux apiName pc.1 (splitLines pc.2) 0 (splitLines pc.2) := by
  intro fs
  induction fs with
  | nil =>
    intro acc u hu
    exact Or.inl hu
  | cons pc rest ih =>
    intro acc u hu
    rw [findUsageAux] at hu
    by_cases hbreak : limit
        ≤ (acc ++ usageLinesAux apiName pc.1 (splitLines pc.2) 0 (splitLines pc.2)).length
    · rw [if_pos hbreak] at hu
      rcases List.mem_append.mp hu with h | h
      · exact Or.inl h
      · exact Or.inr ⟨pc, List.mem_cons_self pc rest, h⟩
    · rw [if_neg hbreak] at hu
      rcases ih _ u hu with h | ⟨pc', hpc', hu'⟩
      · rcases List.mem_append.mp h with h2 | h2
        · exact Or.inl h2
        · exact Or.inr ⟨pc, List.mem_cons_self pc rest, h2⟩
      · exact Or.inr ⟨pc', List.mem_cons_of_mem pc hpc', hu'⟩

/-- Store with no exports, used for the C7 counterexample and witness. -/
def emptySdkExports : SdkExports := ⟨[], [], [], [], []⟩

/-- **C7 counterexample.** On a file whose first line matches, the reported
context window contains zero lines before the matching line, not the
"exactly 2" the claim states: searching "alpha" in the two-line file
`alpha\nbeta` yields a single match at line 1 whose context is the whole
file with the matched line first (the before-window `slice(max(0,0-2), 0)`
is empty). -/
theorem searchInCode_context_window_counterexample :
    (searchInCode emptySdkExports [("pkg/a.ts", "alpha\nbeta")] "alpha"
        Scope.all).codeMatches
      = [⟨"pkg/a.ts", [⟨1, "alpha", "alpha\nbeta"⟩]⟩]
    ∧ ((splitLines "alpha\nbeta").takeWhile (fun l => l ≠ "alpha")).length = 0
    ∧ (jsSlice (splitLines "alpha\nbeta") (0 - 2) 0).length = 0
    ∧ ¬ (jsSlice (splitLines "alpha\nbeta") (0 - 2) 0).length = 2 := by
  refine ⟨by decide, by decide, by decide, by decide⟩

/-- **C7 (amended).** Every file-content match of `search_sdk` is reported
with its 1-based line number and a context window of *up to* 2 lines before
and 2 after — exactly `min 2 i` before and `min 2 (len - i - 1)` after for a
match on 0-based line `i` of a `len`-line file, i.e. exactly 2 away from the
file bounds — and at most 5 matches are reported per file; every
`find_usage_examples` match likewise carries its 1-based line number and a
window of exactly `min 3 i` lines before and `min 3 (len - i - 1)` after. -/
theorem context_windows_clamped (ex : SdkExports) (files : List (String × String))
    (query : String) (scope : Scope) (apiName : String) (limit : Nat) :
    (∀ fm ∈ (searchInCode ex files query scope).codeMatches,
      fm.matchList.length ≤ 5
      ∧ ∃ content, (fm.path, content) ∈ files
        ∧ ∀ m ∈ fm.matchList,
            ∃ i, i < (splitLines content).length
              ∧ m.lineNumber = i + 1
              ∧ m.context = joinLines
                  (jsSlice (splitLines content) (i - 2) (i + 3))
              ∧ jsSlice (splitLines content) (i - 2) (i + 3)
                  = jsSlice (splitLines content) (i - 2) i
                    ++ ((splitLines content).getD i "")
                      :: jsSlice (splitLines content) (i + 1) (i + 3)
              ∧ (jsSlice (splitLines content) (i - 2) i).length = min 2 i
              ∧ (jsSlice (splitLines content) (i + 1) (i + 3)).length
                  = min 2 ((splitLines content).length - (i + 1)))
    ∧ (∀ u ∈ findUsageExamples files apiName limit,
        ∃ pc, pc ∈ files
          ∧ ∃ i, i < (splitLines pc.2).length
              ∧ u.lineNumber = i + 1
              ∧ u.context = joinLines
                  (jsSlice (splitLines pc.2) (i - 3) (i + 4))
              ∧ jsSlice (splitLines pc.2) (i - 3) (i + 4)
                  = jsSlice (splitLines pc.2) (i - 3) i
                    ++ ((splitLines pc.2).getD i "")
                      :: jsSlice (splitLines pc.2) (i + 1) (i + 4)
              ∧ (jsSlice (splitLines pc.2) (i - 3) i).length = min 3 i
              ∧ (jsSlice (splitLines pc.2) (i + 1) (i + 4)).length
                  = min 3 ((splitLines pc.2).length - (i + 1))) := by
  constructor
  · intro fm hfm
    obtain ⟨hlen5, content, hcmem, hall⟩ :=
      searchInCode_codeMatches_mem ex files query scope fm hfm
    refine ⟨hlen5, content, hcmem, ?_⟩
    intro m hm
    obtain ⟨i, hi, _, hmi⟩ := hall m hm
    refine ⟨i, hi, by rw [hmi], by rw [hmi], ?_, ?_, ?_⟩
    · exact jsSlice_split (splitLines content) "" (i - 2) i (i + 3)
        (by omega) (by omega) hi
    · rw [jsSlice_length]
      omega
    · rw [jsSlice_length]
      omega
  · intro u hu
    have hu2 : u ∈ findUsageAux apiName limit files [] := by
      rw [findUsageExamples, truncateArray_items] at hu
      exact List.mem_of_mem_take hu
    rcases findUsageAux_mem apiName limit files [] u hu2 with h | ⟨pc, hpcmem, hu3⟩
    · cases h
    · obtain ⟨i, _, hi, _, hui⟩ :=
        usageLinesAux_mem apiName pc.1 (splitLines pc.2) (splitLines pc.2) 0
          (List.drop_zero _).symm u hu3
      refine ⟨pc, hpcmem, i, hi, by rw [hui], by rw [hui], ?_, ?_, ?_⟩
      · exact jsSlice_split (splitLines pc.2) "" (i - 3) i (i + 4)
          (by omega) (by omega) hi
      · rw [jsSlice_length]
        omega
      · rw [jsSlice_length]
        omega

theorem context_windows_clamped_witness :
    (∀ fm ∈ (searchInCode emptySdkExports
        [("pkg/core/x.ts", "l0\nl1\nalpha x\nl3\nl4\nl5")] "alpha"
        Scope.all).codeMatches,
      fm.matchList.length ≤ 5
      ∧ ∃ content, (fm.path, content)
            ∈ [("pkg/core/x.ts", "l0\nl1\nalpha x\nl3\nl4\nl5")]
        ∧ ∀ m ∈ fm.matchList,
            ∃ i, i < (splitLines content).length
              ∧ m.lineNumber = i + 1
              ∧ m.context = joinLines
                  (jsSlice (splitLines content) (i - 2) (i + 3))
              ∧ jsSlice (splitLines content) (i - 2) (i + 3)
                  = jsSlice (splitLines content) (i - 2) i
                    ++ ((splitLines content).getD i "")
                      :: jsSlice (splitLines content) (i + 1) (i + 3)
              ∧ (jsSlice (splitLines content) (i - 2) i).length = min 2 i
              ∧ (jsSlice (splitLines content) (i + 1) (i + 3)).length
                  = min 2 ((splitLines content).length - (i + 1)))
    ∧ (∀ u ∈ findUsageExamples [("pkg/core/x.ts", "l0\nl1\nalpha x\nl3\nl4\nl5")]
          "alpha" 20,
        ∃ pc, pc ∈ [("pkg/core/x.ts", "l0\nl1\nalpha x\nl3\nl4\nl5")]
          ∧ ∃ i, i < (splitLines pc.2).length
              ∧ u.lineNumber = i + 1
              ∧ u.context = joinLines
                  (jsSlice (splitLines pc.2) (i - 3) (i + 4))
              ∧ jsSlice (splitLines pc.2) (i - 3) (i + 4)
                  = jsSlice (splitLines pc.2) (i - 3) i
                    ++ ((splitLines pc.2).getD i "")
                      :: jsSlice (splitLines pc.2) (i + 1) (i + 4)
              ∧ (jsSlice (splitLines pc.2) (i - 3) i).length = min 3 i
              ∧ (jsSlice (splitLines pc.2) (i + 1) (i + 4)).length
                  = min 3 ((splitLines pc.2).length - (i + 1))) :=
  context_windows_clamped emptySdkExports
    [("pkg/core/x.ts", "l0\nl1\nalpha x\nl3\nl4\nl5")] "alpha" Scope.all "alpha" 20

end PushChain
